import Mathlib

/-
Shallow embedding of the gcode-feeder Arduino sketch
(src/gcode-feeder.ino, with src/serialGrblDEMOKTv3.ino as the earlier
variant of the same program) and proofs about its streaming engine,
pattern scheduler, debounced input monitor and control loop.

Conventions of the embedding:
* The byte content of the open pattern file is a `List Char`; the serial
  receive buffer is likewise a `List Char`.
* Fallible or possibly non-terminating code is embedded in `Option`:
  a `none` result marks the execution path on which the C++ code never
  returns (an infinite loop / indefinite block).
* The global `abortPattern` flag, set asynchronously by `checkButton`
  polls that happen inside the waits of the streaming engine, is
  abstracted in the streaming engine as a schedule `abortAt : Nat → Bool`
  giving the value the flag is observed to have at the top of loop
  iteration `i` of `sendGcode`.
* Side effects on the two serial links, the debug sink and the file
  handle are recorded as an explicit event trace (`Ev`).
-/

namespace GcodeFeeder

/-- gcode-feeder.ino line 44: `const int MAX_FILES = 10;` -/
def MAX_FILES : Nat := 10

/-- gcode-feeder.ino line 54: `const unsigned long DEBOUNCE_TIME_MS = 250;` -/
def DEBOUNCE_TIME_MS : Nat := 250

/-- gcode-feeder.ino lines 347-358, `readLine(File f)`: repeatedly read one
character and append it to the line, until the character read was a
newline; the newline itself is appended before the test (do-while).
`some (l, r)` means the loop returns line `l` leaving `r` unread.
`none` embeds the path where the data runs out before any newline was
seen: there the source keeps reading past end-of-data forever, because
`f.read()` then yields `-1`, whose `char` cast is never equal to `'\n'`,
so the do-while loop never exits. -/
def readLine : List Char → Option (List Char × List Char)
  | [] => none
  | c :: cs =>
    if c = '\n' then some ([c], cs)
    else
      match readLine cs with
      | none => none
      | some (l, r) => some (c :: l, r)

/-- gcode-feeder.ino lines 224-235, the reading loop of `getSerial()`:
`while (GrblSerial.available()) inLine += (char)GrblSerial.read();`
starting from the empty accumulator. It consumes every byte available in
the receive buffer, with no newline test. -/
def drainLoop : List Char → List Char → List Char × List Char
  | acc, [] => (acc, [])
  | acc, c :: rest => drainLoop (acc ++ [c]) rest

/-- gcode-feeder.ino lines 224-235, `getSerial()`: after `waitSerial()`
has blocked until at least one byte is available, read while bytes are
available, returning the accumulated bytes; `buf` is the byte content of
the receive buffer. First component: the returned response line; second:
what is left unconsumed in the buffer when the loop stops. -/
def getSerial (buf : List Char) : List Char × List Char :=
  drainLoop [] buf

/-- Modelled from the spec (section 6, "read a line"): the response line
the spec ascribes to the acknowledgment read — accumulate bytes until a
newline character is received, include the newline, return the buffer,
and leave the bytes after the newline unconsumed. Written for comparison
with `getSerial`, which is the code's actual serial read. -/
def getSerialSpec (buf : List Char) : Option (List Char × List Char) :=
  readLine buf

/-- The persistent (static) state of `checkButton`, gcode-feeder.ino
lines 252-288, together with the global `abortPattern` flag it sets:
`debounceCounter`, `buttonState` and `abortPattern`. (`prevTime` is
absorbed into the `deltaTime` argument of each poll.) Initial values in
the source: counter `0`, state `true`, abort flag `false`. -/
structure BtnState where
  debounceCounter : Nat
  buttonState : Bool
  abortPattern : Bool
deriving DecidableEq, Repr

/-- gcode-feeder.ino lines 252-288, `checkButton()`, as one poll:
`deltaTime` is `millis() - prevTime` and `buttonPressed` is
`LOW == digitalRead(CONTINUE_PIN)`. If the raw sample differs from the
latched state and the counter has not yet reached the threshold, the
elapsed time is accumulated; on reaching `DEBOUNCE_TIME_MS` the new state
is committed and, if it is a press, `abortPattern` is set. Afterwards,
whenever the raw sample equals the (possibly just committed) latched
state, the counter is reset to zero. -/
def checkButton (s : BtnState) (deltaTime : Nat) (buttonPressed : Bool) : BtnState :=
  let s1 :=
    if buttonPressed ≠ s.buttonState ∧ s.debounceCounter < DEBOUNCE_TIME_MS then
      let c := s.debounceCounter + deltaTime
      if DEBOUNCE_TIME_MS ≤ c then
        { debounceCounter := c
          buttonState := buttonPressed
          abortPattern := if buttonPressed then true else s.abortPattern }
      else
        { s with debounceCounter := c }
    else s
  if buttonPressed = s1.buttonState then { s1 with debounceCounter := 0 } else s1

/-- A sequence of `checkButton` polls, each given as the pair
(elapsed time since the previous poll, raw sample of this poll). -/
def runButtons (s : BtnState) (polls : List (Nat × Bool)) : BtnState :=
  polls.foldl (fun s p => checkButton s p.1 p.2) s

/-- gcode-feeder.ino lines 173-176: the initialization loop
`for (i=0; i < MAX_FILES; ++i) patternOrder[i]=i;`. The `int` array
`patternOrder` is embedded as its index-to-value map. -/
def initOrder : Nat → Nat := fun i => i

/-- gcode-feeder.ino lines 184-187, one iteration of the shuffle loop:
`t = patternOrder[j]; patternOrder[j] = patternOrder[pos];
patternOrder[pos] = t;` on the index-to-value map `f`. -/
def shuffleStep (f : Nat → Nat) (j pos : Nat) : Nat → Nat :=
  fun k => if k = j then f pos else if k = pos then f j else f k

/-- gcode-feeder.ino lines 171-189, `randomizePatterns()`: fill
`patternOrder` with `0, 1, ..., MAX_FILES-1`, then
`for (j=0; j < fileCount; j++) swap j with pos = random(fileCount)`.
`rand j` stands for the value `random(fileCount)` returned at iteration
`j`; the Arduino contract is `random(n) < n`. -/
def randomizePatterns (fileCount : Nat) (rand : Nat → Nat) : Nat → Nat :=
  (List.range fileCount).foldl (fun f j => shuffleStep f j (rand j)) initOrder

/-- gcode-feeder.ino lines 92-98, `nextPattern()`:
`currentPattern++; if (currentPattern >= fileCount) currentPattern = 0;`. -/
def nextPattern (fileCount currentPattern : Nat) : Nat :=
  if fileCount ≤ currentPattern + 1 then 0 else currentPattern + 1

/-- The cursor after `k` advances of `nextPattern`, starting from the
initial `currentPattern = 0` set in `setup()` (gcode-feeder.ino line 67). -/
def cursorIter (fileCount : Nat) : Nat → Nat
  | 0 => 0
  | k + 1 => nextPattern fileCount (cursorIter fileCount k)

/-- gcode-feeder.ino lines 194-196, the selection made by `openFileSD()`:
`int nextPatternNumber = patternOrder[currentPattern];
String fileName = filenames[nextPatternNumber];`. Note that the source
consults no size bound here: the selection is performed unconditionally,
whatever `fileCount` is. The `String` array `filenames` is embedded as
its index-to-value map; slots never written keep the default empty
string. -/
def selectPattern (currentPattern : Nat) (patternOrder : Nat → Nat)
    (filenames : Nat → String) : String :=
  filenames (patternOrder currentPattern)

/-- Modelled from the spec (section 4.3, Failure): "if `size == 0` (no
patterns discovered), `next()` must signal 'no pattern available' rather
than attempting to index". Written for comparison with the code's
unconditional `selectPattern`; the code's selection is compared to this
by wrapping its result in `some`. -/
def selectPatternSpec (fileCount currentPattern : Nat) (patternOrder : Nat → Nat)
    (filenames : Nat → String) : Option String :=
  if fileCount = 0 then none
  else some (filenames (patternOrder currentPattern))

/-- The outcome the spec's `stream()` contract assigns to an invocation
of `sendGcode` (gcode-feeder.ino lines 290-324): exit by end-of-data,
exit by the abort break, or the invalid-file (`else fileError()`) path. -/
inductive Outcome where
  | Completed
  | Aborted
  | OpenFailed
deriving DecidableEq, Repr

/-- Observable events of one `sendGcode` invocation.
`wakeWrite` — `GrblSerial.print("\r\n\r\n")` (line 296);
`drainRecv` — `emptySerialBuf()` (line 298, reading the controller's
receive buffer until empty, lines 208-212);
`lineWrite l` — `GrblSerial.print(line)` with line bytes `l` (line 313);
`ackRead` — the blocking `getSerial()` acknowledgment read (line 314);
`fileErrorReport` — `fileError()` (line 318, lines 340-344);
`fileClose` — `currentFile.close()` (line 321). -/
inductive Ev where
  | wakeWrite
  | drainRecv
  | lineWrite (l : List Char)
  | ackRead
  | fileErrorReport
  | fileClose
deriving DecidableEq, Repr

/-- The program-line writes contained in an event trace, in order. -/
def lineWrites (evs : List Ev) : List (List Char) :=
  evs.filterMap fun e =>
    match e with
    | Ev.lineWrite l => some l
    | _ => none

/-- gcode-feeder.ino lines 300-315, the streaming loop of `sendGcode()`,
one invocation starting at loop iteration `i` with file bytes `data`
remaining: while data remains (`currentFile.available()`), poll the
button and break with the abort outcome if `abortPattern` is observed set
(`abortAt i`); otherwise `readLine` one line, write it to the controller
link and block on `getSerial()` for the acknowledgment. The model takes
the controller to acknowledge each line (the acknowledged handshake of
the claims); `abortAt i` abstracts the value the global `abortPattern`
flag is observed to have at the `if (abortPattern)` test of iteration
`i`, the flag having been set (if ever) by the `checkButton` polls inside
the waits. A `none` outcome embeds the path where `readLine` never
returns. -/
def sendGcodeAux (abortAt : Nat → Bool) (i : Nat) (data : List Char) :
    List Ev × Option Outcome :=
  if data = [] then ([], some Outcome.Completed)
  else if abortAt i then ([], some Outcome.Aborted)
  else
    match hr : readLine data with
    | none => ([], none)
    | some (l, r) =>
      let rest := sendGcodeAux abortAt (i + 1) r
      (Ev.lineWrite l :: Ev.ackRead :: rest.1, rest.2)
termination_by data.length
decreasing_by
  have key : ∀ (d l r : List Char), readLine d = some (l, r) → r.length < d.length := by
    intro d
    induction d with
    | nil => intro l r h; simp [readLine] at h
    | cons c cs ih =>
      intro l r h
      by_cases hc : c = '\n'
      · simp [readLine, hc] at h
        obtain ⟨_, hr⟩ := h
        subst hr
        simp
      · simp [readLine, hc] at h
        cases hrl : readLine cs with
        | none => rw [hrl] at h; simp at h
        | some p =>
          rw [hrl] at h
          cases p with
          | mk l' r' =>
            simp at h
            obtain ⟨_, hr⟩ := h
            subst hr
            have := ih l' r' hrl
            simp
            omega
  exact key data l r hr

/-- gcode-feeder.ino lines 290-324, `sendGcode()`: write the wake
sequence `"\r\n\r\n"` to the controller link, drain the controller's
receive buffer, then test `if (currentFile)`: on an invalid handle
(`file = none`, the failed open) report a file error; otherwise run the
streaming loop. In either case `currentFile.close()` runs at the end —
except on the embedded non-returning path, where execution never gets
there. -/
def sendGcode (file : Option (List Char)) (abortAt : Nat → Bool) :
    List Ev × Option Outcome :=
  match file with
  | none =>
    ([Ev.wakeWrite, Ev.drainRecv, Ev.fileErrorReport, Ev.fileClose],
      some Outcome.OpenFailed)
  | some data =>
    let r := sendGcodeAux abortAt 0 data
    (Ev.wakeWrite :: Ev.drainRecv ::
      (r.1 ++ (if r.2.isSome then [Ev.fileClose] else [])), r.2)

/-- A well-formed program line: some newline-free bytes followed by the
terminating newline. -/
def IsLine (l : List Char) : Prop :=
  ∃ s : List Char, l = s ++ ['\n'] ∧ '\n' ∉ s

/-- The events the streaming loop emits for a list of sent lines. -/
def lineEvents : List (List Char) → List Ev
  | [] => []
  | l :: ls => Ev.lineWrite l :: Ev.ackRead :: lineEvents ls

/-- The loop-level state of `loop()` (gcode-feeder.ino lines 79-90):
the global `abortPattern` flag as it stands between iterations, the
scheduler cursor `currentPattern`, and a count of patterns streamed so
far (one per `openFileSD(); sendGcode();` pair executed). -/
structure LoopState where
  abortPattern : Bool
  currentPattern : Nat
  streamed : Nat
deriving DecidableEq, Repr

/-- One iteration of `loop()` (gcode-feeder.ino lines 79-90) over a
catalog of `fileCount` patterns. `pinLow` is this iteration's
`LOW == digitalRead(CONTINUE_PIN)`; `pressDuringSend` says whether a
debounced press occurs during this iteration's `sendGcode` (in which case
`checkButton` sets `abortPattern` and `sendGcode` breaks out of its loop
without clearing the flag). The body runs iff the entry condition
`pinLow || abortPattern` holds; it first clears `abortPattern`, then
streams one pattern (after which the flag equals `pressDuringSend`),
then advances the cursor with `nextPattern`. -/
def loopIter (fileCount : Nat) (pinLow pressDuringSend : Bool)
    (s : LoopState) : LoopState :=
  if pinLow || s.abortPattern then
    { abortPattern := pressDuringSend
      currentPattern := nextPattern fileCount s.currentPattern
      streamed := s.streamed + 1 }
  else s

/-! ### Facts about `readLine` -/

/-- Whenever `readLine` returns `some (l, r)`, the data splits as
`l ++ r` and the returned line is nonempty. -/
theorem readLine_some_append : ∀ (data l r : List Char),
    readLine data = some (l, r) → data = l ++ r ∧ l ≠ [] := by
  intro data
  induction data with
  | nil => intro l r h; simp [readLine] at h
  | cons c cs ih =>
    intro l r h
    by_cases hc : c = '\n'
    · simp [readLine, hc] at h
      obtain ⟨hl, hr⟩ := h
      subst hl; subst hr; subst hc
      exact ⟨rfl, by simp⟩
    · simp [readLine, hc] at h
      cases hrl : readLine cs with
      | none => rw [hrl] at h; simp at h
      | some p =>
        rw [hrl] at h
        cases p with
        | mk l' r' =>
          simp at h
          obtain ⟨hl, hr⟩ := h
          obtain ⟨he, _⟩ := ih l' r' hrl
          subst hl; subst hr
          constructor
          · simp [he]
          · simp

/-- The unread rest left by `readLine` is strictly shorter than the data. -/
theorem readLine_rest_length_lt (data l r : List Char)
    (h : readLine data = some (l, r)) : r.length < data.length := by
  obtain ⟨he, hne⟩ := readLine_some_append data l r h
  subst he
  have : 0 < l.length := List.length_pos.mpr hne
  simp [List.length_append]
  omega

/-- `readLine` returns a result exactly when the data contains a
newline. -/
theorem readLine_isSome_iff : ∀ data : List Char,
    (readLine data).isSome ↔ '\n' ∈ data := by
  intro data
  induction data with
  | nil => simp [readLine]
  | cons c cs ih =>
    by_cases hc : c = '\n'
    · simp [readLine, hc]
    · simp only [readLine, if_neg hc]
      cases hrl : readLine cs with
      | none =>
        rw [hrl] at ih
        simp at ih
        simp [List.mem_cons, ih, hc, Ne.symm hc]
      | some p =>
        rw [hrl] at ih
        simp at ih
        simp [List.mem_cons, ih]

/-- The line returned by `readLine` is exactly the bytes before the
first newline followed by that newline. -/
theorem readLine_line_structure : ∀ (data l r : List Char),
    readLine data = some (l, r) →
    l = data.takeWhile (fun c => c != '\n') ++ ['\n'] := by
  intro data
  induction data with
  | nil => intro l r h; simp [readLine] at h
  | cons c cs ih =>
    intro l r h
    by_cases hc : c = '\n'
    · simp [readLine, hc] at h
      obtain ⟨hl, _⟩ := h
      subst hl; subst hc
      simp [List.takeWhile]
    · simp [readLine, hc] at h
      cases hrl : readLine cs with
      | none => rw [hrl] at h; simp at h
      | some p =>
        rw [hrl] at h
        cases p with
        | mk l' r' =>
          simp at h
          obtain ⟨hl, _⟩ := h
          subst hl
          have := ih l' r' hrl
          have hb : (c != '\n') = true := by simp [hc]
          simp [List.takeWhile_cons, hb, this]

/-- C9: `readLine` terminates, returning the accumulated bytes (the data
up to and including its first newline), exactly when the remaining data
contains a newline character; when it does not — a final line with no
terminating newline before physical end-of-data — `readLine` never
returns (`none`), the source reading one more character past end-of-data
forever instead of treating "no more bytes and no newline seen" as
end-of-line. -/
theorem readLine_spec : ∀ data : List Char,
    ((readLine data).isSome ↔ '\n' ∈ data)
    ∧ (∀ l r, readLine data = some (l, r) →
        data = l ++ r ∧ l = data.takeWhile (fun c => c != '\n') ++ ['\n'])
    ∧ ('\n' ∉ data → readLine data = none) := by
  intro data
  refine ⟨readLine_isSome_iff data, ?_, ?_⟩
  · intro l r h
    exact ⟨(readLine_some_append data l r h).1, readLine_line_structure data l r h⟩
  · intro hmem
    cases hrl : readLine data with
    | none => rfl
    | some p =>
      exact absurd ((readLine_isSome_iff data).mp (by simp [hrl])) hmem

/-- Witness for `readLine_spec` at the concrete data `"a\nb"`. -/
theorem readLine_spec_witness :
    ('\n' ∈ (['a', '\n', 'b'] : List Char))
    ∧ (['a', '\n', 'b'] : List Char) = ['a', '\n'] ++ ['b']
    ∧ (['a', '\n'] : List Char)
        = (['a', '\n', 'b'] : List Char).takeWhile (fun c => c != '\n') ++ ['\n'] := by
  refine ⟨(readLine_spec ['a', '\n', 'b']).1.mp (by decide), ?_⟩
  exact (readLine_spec ['a', '\n', 'b']).2.1 ['a', '\n'] ['b'] (by decide)

/-! ### Facts about `getSerial` -/

/-- The `getSerial` reading loop consumes the whole buffer. -/
theorem drainLoop_eq : ∀ (buf acc : List Char), drainLoop acc buf = (acc ++ buf, []) := by
  intro buf
  induction buf with
  | nil => intro acc; simp [drainLoop]
  | cons c rest ih => intro acc; simp [drainLoop, ih]

/-- C7 counterexample: with `"ok\nX"` buffered, the code's `getSerial`
returns all four bytes and consumes the `'X'` after the newline, while
the claimed newline-delimited read would return `"ok\n"` and leave
`'X'` unconsumed. -/
theorem getSerial_newline_claim_false :
    getSerial ['o', 'k', '\n', 'X'] = (['o', 'k', '\n', 'X'], [])
    ∧ getSerialSpec ['o', 'k', '\n', 'X'] = some (['o', 'k', '\n'], ['X'])
    ∧ (getSerial ['o', 'k', '\n', 'X']).1 ≠ ['o', 'k', '\n']
    ∧ (getSerial ['o', 'k', '\n', 'X']).2 ≠ ['X'] := by decide

/-- C7 amended: the response line returned by `getSerial` is all the
bytes available in the receive buffer, consumed until the buffer is
empty; reading does not stop at a newline, so buffered bytes after the
first newline are consumed and included in the returned response line. -/
theorem getSerial_returns_whole_buffer : ∀ buf : List Char,
    getSerial buf = (buf, []) := by
  intro buf
  simpa [getSerial] using drainLoop_eq buf []

/-! ### Facts about the streaming engine `sendGcode` -/

/-- No data left: the streaming loop exits with the completed outcome. -/
theorem sendGcodeAux_nil (A : Nat → Bool) (i : Nat) :
    sendGcodeAux A i [] = ([], some Outcome.Completed) := by
  rw [sendGcodeAux]
  simp

/-- Abort observed set at the top of an iteration with data remaining:
the loop breaks with the aborted outcome, sending nothing further. -/
theorem sendGcodeAux_abort (A : Nat → Bool) (i : Nat) (data : List Char)
    (hd : data ≠ []) (hA : A i = true) :
    sendGcodeAux A i data = ([], some Outcome.Aborted) := by
  rw [sendGcodeAux]
  simp [hd, hA]

/-- No abort and a full line available: the loop sends the line, reads
the acknowledgment, and continues on the rest. -/
theorem sendGcodeAux_step (A : Nat → Bool) (i : Nat) (data l r : List Char)
    (hd : data ≠ []) (hA : A i = false) (hr : readLine data = some (l, r)) :
    sendGcodeAux A i data
      = (Ev.lineWrite l :: Ev.ackRead :: (sendGcodeAux A (i + 1) r).1,
         (sendGcodeAux A (i + 1) r).2) := by
  rw [sendGcodeAux]
  simp only [if_neg hd, hA, Bool.false_eq_true, if_false]
  split
  · rename_i heq
    rw [hr] at heq
    exact absurd heq (by simp)
  · rename_i l' r' heq
    rw [hr] at heq
    injection heq with h
    injection h with h1 h2
    subst h1
    subst h2
    rfl

/-- `readLine` on a well-formed line prepended to further data returns
exactly that line, leaving the further data unread. -/
theorem readLine_prepend (s rest : List Char) (hs : '\n' ∉ s) :
    readLine (s ++ '\n' :: rest) = some (s ++ ['\n'], rest) := by
  induction s with
  | nil => simp [readLine]
  | cons c cs ih =>
    have hc : c ≠ '\n' := by
      intro h
      exact hs (by simp [h])
    have hs' : '\n' ∉ cs := fun h => hs (List.mem_cons_of_mem _ h)
    simp [readLine, hc, ih hs']

/-- The program-line writes recorded in `lineEvents lines` are exactly
`lines`. -/
theorem lineWrites_lineEvents : ∀ ls : List (List Char),
    lineWrites (lineEvents ls) = ls := by
  intro ls
  induction ls with
  | nil => rfl
  | cons l ls ih => simp [lineEvents, lineWrites, List.filterMap_cons] at ih ⊢; exact ih

/-- `lineEvents` contains no `fileClose` event. -/
theorem fileClose_not_mem_lineEvents : ∀ ls : List (List Char),
    Ev.fileClose ∉ lineEvents ls := by
  intro ls
  induction ls with
  | nil => simp [lineEvents]
  | cons l ls ih => simp [lineEvents, ih]

/-- A well-formed line is nonempty. -/
theorem IsLine.ne_nil {l : List Char} (h : IsLine l) : l ≠ [] := by
  obtain ⟨s, hl, _⟩ := h
  subst hl
  simp

/-- The flattened data of a nonempty list of well-formed lines is
nonempty. -/
theorem flatten_cons_ne_nil (l : List Char) (ls : List (List Char))
    (h : IsLine l) : (l :: ls).flatten ≠ [] := by
  obtain ⟨s, hl, _⟩ := h
  subst hl
  simp

/-- `readLine` applied to the flattened data of a nonempty list of
well-formed lines returns the first line and the rest of the data. -/
theorem readLine_flatten (l : List Char) (ls : List (List Char))
    (h : IsLine l) :
    readLine ((l :: ls).flatten) = some (l, ls.flatten) := by
  obtain ⟨s, hl, hs⟩ := h
  subst hl
  have : (s ++ ['\n']) ++ ls.flatten = s ++ '\n' :: ls.flatten := by simp
  rw [List.flatten_cons, this]
  exact readLine_prepend s ls.flatten hs

/-- With no abort ever observed, the streaming loop sends every line of
the program in order and completes. -/
theorem sendGcodeAux_complete : ∀ (lines : List (List Char)) (i : Nat),
    (∀ l ∈ lines, IsLine l) →
    sendGcodeAux (fun _ => false) i lines.flatten
      = (lineEvents lines, some Outcome.Completed) := by
  intro lines
  induction lines with
  | nil =>
    intro i _
    simpa [lineEvents] using sendGcodeAux_nil (fun _ => false) i
  | cons l ls ih =>
    intro i hwf
    have hl : IsLine l := hwf l (by simp)
    have hdne := flatten_cons_ne_nil l ls hl
    have hr := readLine_flatten l ls hl
    rw [sendGcodeAux_step (fun _ => false) i _ l ls.flatten hdne rfl hr,
      ih (i + 1) (fun x hx => hwf x (by simp [hx]))]
    simp [lineEvents]

/-- With the abort flag first observed set at iteration `i + m` (counting
from the current iteration `i`), the streaming loop sends exactly the
first `m` lines and exits with the aborted outcome. -/
theorem sendGcodeAux_abort_run : ∀ (m : Nat) (lines : List (List Char))
    (A : Nat → Bool) (i : Nat),
    (∀ l ∈ lines, IsLine l) → m < lines.length →
    (∀ j, j < m → A (i + j) = false) → A (i + m) = true →
    sendGcodeAux A i lines.flatten
      = (lineEvents (lines.take m), some Outcome.Aborted) := by
  intro m
  induction m with
  | zero =>
    intro lines A i hwf hlen _ hm
    cases lines with
    | nil => simp at hlen
    | cons l ls =>
      have hl : IsLine l := hwf l (by simp)
      have hdne := flatten_cons_ne_nil l ls hl
      have hAi : A i = true := by simpa using hm
      simpa [lineEvents] using sendGcodeAux_abort A i _ hdne hAi
  | succ m ih =>
    intro lines A i hwf hlen h0 hm
    cases lines with
    | nil => simp at hlen
    | cons l ls =>
      have hl : IsLine l := hwf l (by simp)
      have hdne := flatten_cons_ne_nil l ls hl
      have hr := readLine_flatten l ls hl
      have hAi : A i = false := by simpa using h0 0 (by omega)
      have h0' : ∀ j, j < m → A ((i + 1) + j) = false := by
        intro j hj
        have he : (i + 1) + j = i + (j + 1) := by omega
        rw [he]
        exact h0 (j + 1) (by omega)
      have hm' : A ((i + 1) + m) = true := by
        have he : (i + 1) + m = i + (m + 1) := by omega
        rw [he]
        exact hm
      have hlen' : m < ls.length := by
        simp at hlen
        omega
      rw [sendGcodeAux_step A i _ l ls.flatten hdne hAi hr,
        ih ls A (i + 1) (fun x hx => hwf x (by simp [hx])) hlen' h0' hm']
      simp [lineEvents]

/-- C1: streaming an `N`-line program (`N ≥ 1`, every line terminated by
a newline) with the controller acknowledging each line and no abort
condition ever observed writes exactly the `N` source lines to the
controller link, in original order and byte-identical including their
newline terminators, and exits with the `Completed` outcome (closing the
file at the end). -/
theorem sendGcode_completes (lines : List (List Char))
    (_h1 : lines ≠ []) (h2 : ∀ l ∈ lines, IsLine l) :
    sendGcode (some lines.flatten) (fun _ => false)
      = (Ev.wakeWrite :: Ev.drainRecv :: (lineEvents lines ++ [Ev.fileClose]),
         some Outcome.Completed)
    ∧ lineWrites (Ev.wakeWrite :: Ev.drainRecv ::
        (lineEvents lines ++ [Ev.fileClose])) = lines
    ∧ (lineWrites (Ev.wakeWrite :: Ev.drainRecv ::
        (lineEvents lines ++ [Ev.fileClose]))).length = lines.length := by
  have haux := sendGcodeAux_complete lines 0 h2
  have hw : lineWrites (Ev.wakeWrite :: Ev.drainRecv ::
      (lineEvents lines ++ [Ev.fileClose])) = lines := by
    simp [lineWrites, List.filterMap_cons, List.filterMap_append]
    simpa [lineWrites] using lineWrites_lineEvents lines
  refine ⟨?_, hw, by rw [hw]⟩
  simp [sendGcode, haux]

/-- Witness for `sendGcode_completes` on the two-line program
`"G\nX\n"`. -/
theorem sendGcode_completes_witness :
    sendGcode (some (([['G', '\n'], ['X', '\n']] : List (List Char)).flatten))
        (fun _ => false)
      = (Ev.wakeWrite :: Ev.drainRecv ::
          (lineEvents [['G', '\n'], ['X', '\n']] ++ [Ev.fileClose]),
         some Outcome.Completed)
    ∧ lineWrites (Ev.wakeWrite :: Ev.drainRecv ::
        (lineEvents [['G', '\n'], ['X', '\n']] ++ [Ev.fileClose]))
        = [['G', '\n'], ['X', '\n']]
    ∧ (lineWrites (Ev.wakeWrite :: Ev.drainRecv ::
        (lineEvents [['G', '\n'], ['X', '\n']] ++ [Ev.fileClose]))).length
        = ([['G', '\n'], ['X', '\n']] : List (List Char)).length := by
  refine sendGcode_completes [['G', '\n'], ['X', '\n']] (by decide) ?_
  intro l hl
  simp at hl
  rcases hl with h | h <;> subst h
  · exact ⟨['G'], rfl, by decide⟩
  · exact ⟨['X'], rfl, by decide⟩

/-- C3: if the abort condition becomes active after the acknowledgment
of line `k` (`1 ≤ k < N`) — i.e. it is first observed set at the top of
loop iteration `k` — streaming writes exactly the first `k` lines to the
controller link and exits with the `Aborted` outcome; and the file handle
is closed exactly once on this exit path just as on the completed path. -/
theorem sendGcode_aborted (lines : List (List Char)) (k : Nat)
    (_h1 : 1 ≤ k) (h2 : k < lines.length) (h3 : ∀ l ∈ lines, IsLine l) :
    sendGcode (some lines.flatten) (fun n => decide (k ≤ n))
      = (Ev.wakeWrite :: Ev.drainRecv ::
          (lineEvents (lines.take k) ++ [Ev.fileClose]),
         some Outcome.Aborted)
    ∧ lineWrites (Ev.wakeWrite :: Ev.drainRecv ::
        (lineEvents (lines.take k) ++ [Ev.fileClose])) = lines.take k
    ∧ (lines.take k).length = k
    ∧ (Ev.wakeWrite :: Ev.drainRecv ::
        (lineEvents (lines.take k) ++ [Ev.fileClose])).count Ev.fileClose = 1
    ∧ ((sendGcode (some lines.flatten) (fun _ => false)).1).count Ev.fileClose = 1 := by
  have h0 : ∀ j, j < k → (fun n => decide (k ≤ n)) (0 + j) = false := by
    intro j hj
    simp only [Nat.zero_add, decide_eq_false_iff_not]
    omega
  have hk : (fun n => decide (k ≤ n)) (0 + k) = true := by
    simp
  have haux := sendGcodeAux_abort_run k lines (fun n => decide (k ≤ n)) 0 h3 h2 h0 hk
  have hcomp := sendGcodeAux_complete lines 0 h3
  have hcount : ∀ ls : List (List Char),
      (Ev.wakeWrite :: Ev.drainRecv ::
        (lineEvents ls ++ [Ev.fileClose])).count Ev.fileClose = 1 := by
    intro ls
    have hz : (lineEvents ls).count Ev.fileClose = 0 :=
      List.count_eq_zero.mpr (fileClose_not_mem_lineEvents ls)
    simp [List.count_cons, List.count_append, hz]
  refine ⟨?_, ?_, ?_, hcount (lines.take k), ?_⟩
  · simp [sendGcode, haux]
  · simp [lineWrites, List.filterMap_cons, List.filterMap_append]
    simpa [lineWrites] using lineWrites_lineEvents (lines.take k)
  · exact List.length_take_of_le (by omega)
  · simp only [sendGcode, hcomp]
    simpa using hcount lines

/-- Witness for `sendGcode_aborted` on the two-line program `"a\nb\n"`
with the abort first observed at iteration `k = 1`. -/
theorem sendGcode_aborted_witness :
    sendGcode (some (([['a', '\n'], ['b', '\n']] : List (List Char)).flatten))
        (fun n => decide (1 ≤ n))
      = (Ev.wakeWrite :: Ev.drainRecv ::
          (lineEvents (([['a', '\n'], ['b', '\n']] : List (List Char)).take 1)
            ++ [Ev.fileClose]),
         some Outcome.Aborted)
    ∧ lineWrites (Ev.wakeWrite :: Ev.drainRecv ::
        (lineEvents (([['a', '\n'], ['b', '\n']] : List (List Char)).take 1)
          ++ [Ev.fileClose]))
        = ([['a', '\n'], ['b', '\n']] : List (List Char)).take 1
    ∧ (([['a', '\n'], ['b', '\n']] : List (List Char)).take 1).length = 1
    ∧ (Ev.wakeWrite :: Ev.drainRecv ::
        (lineEvents (([['a', '\n'], ['b', '\n']] : List (List Char)).take 1)
          ++ [Ev.fileClose])).count Ev.fileClose = 1
    ∧ ((sendGcode (some (([['a', '\n'], ['b', '\n']] : List (List Char)).flatten))
        (fun _ => false)).1).count Ev.fileClose = 1 := by
  refine sendGcode_aborted [['a', '\n'], ['b', '\n']] 1 (by decide) (by decide) ?_
  intro l hl
  simp at hl
  rcases hl with h | h <;> subst h
  · exact ⟨['a'], rfl, by decide⟩
  · exact ⟨['b'], rfl, by decide⟩

/-- C5: streaming a program whose open failed (an invalid file handle)
writes no program line to the controller link, reports the file error
exactly once with no retry, closes the handle, returns the `OpenFailed`
outcome, and does not block (the invocation returns, `none` being the
embedding's marker for a non-returning path). -/
theorem sendGcode_open_failed : ∀ A : Nat → Bool,
    sendGcode none A
      = ([Ev.wakeWrite, Ev.drainRecv, Ev.fileErrorReport, Ev.fileClose],
         some Outcome.OpenFailed)
    ∧ lineWrites (sendGcode none A).1 = []
    ∧ ((sendGcode none A).1).count Ev.fileErrorReport = 1
    ∧ (sendGcode none A).2 = some Outcome.OpenFailed
    ∧ ((sendGcode none A).2).isSome = true := by
  intro A
  exact ⟨rfl, rfl, rfl, rfl, rfl⟩

/-- C10: on every `sendGcode` invocation the wake sequence write and the
receive-buffer drain are the first two link operations, before the
file-open validity test — in particular they happen even when the program
failed to open, so the `OpenFailed` path still transmits the wake
bytes. -/
theorem sendGcode_wake_and_drain_first : ∀ (file : Option (List Char)) (A : Nat → Bool),
    (sendGcode file A).1.take 2 = [Ev.wakeWrite, Ev.drainRecv]
    ∧ ((sendGcode none A).2 = some Outcome.OpenFailed
        ∧ (sendGcode none A).1.take 2 = [Ev.wakeWrite, Ev.drainRecv]) := by
  intro file A
  refine ⟨?_, rfl, rfl⟩
  cases file with
  | none => rfl
  | some data => rfl

/-! ### Facts about the scheduler `randomizePatterns` / `nextPattern` -/

/-- One shuffle swap is composition with the transposition of the two
indices. -/
theorem shuffleStep_eq_comp (f : Nat → Nat) (j p : Nat) :
    shuffleStep f j p = fun k => f (Equiv.swap j p k) := by
  funext k
  simp only [shuffleStep, Equiv.swap_apply_def]
  split_ifs <;> rfl

/-- A transposition of two indices below `N` maps indices below `N` to
indices below `N`. -/
theorem swap_lt_of_lt {N j p : Nat} (hj : j < N) (hp : p < N) {y : Nat}
    (hy : y < N) : Equiv.swap j p y < N := by
  rcases eq_or_ne y j with h | h
  · subst h
    rw [Equiv.swap_apply_left]
    exact hp
  · rcases eq_or_ne y p with h2 | h2
    · subst h2
      rw [Equiv.swap_apply_right]
      exact hj
    · rw [Equiv.swap_apply_of_ne_of_ne h h2]
      exact hy

/-- Mapping a transposition of two indices below `N` over `range N`
permutes `range N`. -/
theorem map_swap_range_perm {N j p : Nat} (hj : j < N) (hp : p < N) :
    ((List.range N).map (Equiv.swap j p)).Perm (List.range N) := by
  have nd1 : ((List.range N).map (Equiv.swap j p)).Nodup :=
    (List.nodup_range N).map (Equiv.injective _)
  rw [List.perm_ext_iff_of_nodup nd1 (List.nodup_range N)]
  intro a
  simp only [List.mem_map, List.mem_range]
  constructor
  · rintro ⟨y, hy, rfl⟩
    exact swap_lt_of_lt hj hp hy
  · intro ha
    exact ⟨Equiv.swap j p a, swap_lt_of_lt hj hp ha, Equiv.swap_apply_self j p a⟩

/-- One shuffle swap with both positions below `N` preserves the
property that the first `N` entries of the order array permute
`range N`. -/
theorem shuffleStep_perm {N : Nat} {f : Nat → Nat} {j p : Nat}
    (hj : j < N) (hp : p < N)
    (hf : ((List.range N).map f).Perm (List.range N)) :
    ((List.range N).map (shuffleStep f j p)).Perm (List.range N) := by
  rw [shuffleStep_eq_comp]
  have h1 : (List.range N).map (fun k => f (Equiv.swap j p k))
      = ((List.range N).map (Equiv.swap j p)).map f := by
    rw [List.map_map]
    rfl
  rw [h1]
  exact ((map_swap_range_perm hj hp).map f).trans hf

/-- The whole shuffle loop preserves the permutation property, provided
every swap position drawn is below `N`. -/
theorem shuffle_foldl_perm {N : Nat} (rand : Nat → Nat) (hr : ∀ j, rand j < N) :
    ∀ (js : List Nat) (f : Nat → Nat), (∀ j ∈ js, j < N) →
    ((List.range N).map f).Perm (List.range N) →
    ((List.range N).map
        (js.foldl (fun f j => shuffleStep f j (rand j)) f)).Perm (List.range N) := by
  intro js
  induction js with
  | nil =>
    intro f _ hf
    simpa using hf
  | cons j js ih =>
    intro f hmem hf
    simp only [List.foldl_cons]
    exact ih _ (fun x hx => hmem x (by simp [hx]))
      (shuffleStep_perm (hmem j (by simp)) (hr j) hf)

/-- Starting from cursor `0`, the cursor visits `0, 1, ..., N-1` in
order: after `k < N` advances it sits at `k`. -/
theorem cursorIter_lt (N : Nat) : ∀ k, k < N → cursorIter N k = k := by
  intro k
  induction k with
  | zero => intro _; rfl
  | succ k ih =>
    intro hk
    have hk' : k < N := by omega
    simp only [cursorIter, ih hk', nextPattern]
    rw [if_neg (by omega)]

/-- C2: for every catalog size `N` with `1 ≤ N ≤ MAX_FILES` and every
draw sequence with `random(fileCount) < fileCount`, after
`randomizePatterns` the first `N` entries of the pattern-order array are
a permutation of `0, ..., N-1` — every index in `[0, N)` appears exactly
once — and the first `N` cursor positions of successive `nextPattern`
advances are `0, ..., N-1`, so `N` successive selections visit each of
the `N` catalog entries exactly once per full cycle. -/
theorem randomizePatterns_perm (N : Nat) (rand : Nat → Nat)
    (_h1 : 1 ≤ N) (_h2 : N ≤ MAX_FILES) (hr : ∀ j, rand j < N) :
    ((List.range N).map (randomizePatterns N rand)).Perm (List.range N)
    ∧ (∀ k, k < N → cursorIter N k = k) := by
  constructor
  · have hinit : ((List.range N).map initOrder).Perm (List.range N) := by
      have : (List.range N).map initOrder = List.range N := List.map_id (List.range N)
      rw [this]
    exact shuffle_foldl_perm rand hr (List.range N) initOrder
      (fun j hj => List.mem_range.mp hj) hinit
  · exact cursorIter_lt N

/-- Witness for `randomizePatterns_perm` at `N = 3` with all draws `0`. -/
theorem randomizePatterns_perm_witness :
    ((List.range 3).map (randomizePatterns 3 (fun _ => 0))).Perm (List.range 3)
    ∧ cursorIter 3 2 = 2 :=
  ⟨(randomizePatterns_perm 3 (fun _ => 0) (by decide) (by decide)
      (fun _ => Nat.zero_lt_succ 2)).1,
   (randomizePatterns_perm 3 (fun _ => 0) (by decide) (by decide)
      (fun _ => Nat.zero_lt_succ 2)).2 2 (by decide)⟩

/-! ### Facts about the debounced input monitor `checkButton` -/

/-- Unfolding one poll of a poll sequence. -/
theorem runButtons_cons (s : BtnState) (p : Nat × Bool) (ps : List (Nat × Bool)) :
    runButtons s (p :: ps) = runButtons (checkButton s p.1 p.2) ps := rfl

/-- A poll whose raw sample matches the latched state only resets the
counter. -/
theorem checkButton_matching (s : BtnState) (dt : Nat) :
    checkButton s dt s.buttonState = { s with debounceCounter := 0 } := by
  simp [checkButton]

/-- A differing raw sample that does not yet reach the threshold only
accumulates the elapsed time. -/
theorem checkButton_differ_small (s : BtnState) (dt : Nat) (b : Bool)
    (hb : b ≠ s.buttonState)
    (hsmall : s.debounceCounter + dt < DEBOUNCE_TIME_MS) :
    checkButton s dt b = { s with debounceCounter := s.debounceCounter + dt } := by
  have h1 : b ≠ s.buttonState ∧ s.debounceCounter < DEBOUNCE_TIME_MS :=
    ⟨hb, by omega⟩
  have h2 : ¬ DEBOUNCE_TIME_MS ≤ s.debounceCounter + dt := by omega
  simp only [checkButton, if_pos h1, if_neg h2]
  rw [if_neg (by simpa using hb)]

/-- A differing raw sample that reaches the threshold commits the new
state, resets the counter, and sets the abort flag iff the new state is
pressed. -/
theorem checkButton_commit (s : BtnState) (dt : Nat) (b : Bool)
    (hb : b ≠ s.buttonState) (hlt : s.debounceCounter < DEBOUNCE_TIME_MS)
    (hbig : DEBOUNCE_TIME_MS ≤ s.debounceCounter + dt) :
    checkButton s dt b
      = { debounceCounter := 0, buttonState := b,
          abortPattern := s.abortPattern || b } := by
  have h1 : b ≠ s.buttonState ∧ s.debounceCounter < DEBOUNCE_TIME_MS := ⟨hb, hlt⟩
  simp only [checkButton, if_pos h1, if_pos hbig]
  cases b <;> simp

/-- A run of polls whose raw sample always matches the latched state
leaves a settled (counter-zero) state untouched. -/
theorem hold_run : ∀ (polls : List (Nat × Bool)) (s : BtnState),
    (∀ p ∈ polls, p.2 = s.buttonState) → s.debounceCounter = 0 →
    runButtons s polls = s := by
  intro polls
  induction polls with
  | nil => intro s _ _; rfl
  | cons p ps ih =>
    intro s hp h0
    have h2 : p.2 = s.buttonState := hp p (by simp)
    have hcb : checkButton s p.1 p.2 = { s with debounceCounter := 0 } := by
      rw [h2]
      exact checkButton_matching s p.1
    have hss : ({ s with debounceCounter := 0 } : BtnState) = s := by
      cases s
      simp_all
    rw [runButtons_cons, hcb, hss]
    exact ih s (fun q hq => hp q (List.mem_cons_of_mem _ hq)) h0

/-- A run of differing raw samples whose total elapsed time stays below
the threshold only accumulates the counter: latched state and abort flag
are unchanged. -/
theorem glitch_run : ∀ (polls : List (Nat × Bool)) (s : BtnState),
    (∀ p ∈ polls, p.2 = !s.buttonState) →
    s.debounceCounter + (polls.map Prod.fst).sum < DEBOUNCE_TIME_MS →
    runButtons s polls
      = { s with debounceCounter := s.debounceCounter + (polls.map Prod.fst).sum } := by
  intro polls
  induction polls with
  | nil =>
    intro s _ _
    cases s
    simp [runButtons]
  | cons p ps ih =>
    intro s hp hsum
    have hbn : p.2 = !s.buttonState := hp p (by simp)
    have hb : p.2 ≠ s.buttonState := by
      rw [hbn]
      cases s.buttonState <;> simp
    simp only [List.map_cons, List.sum_cons] at hsum
    have hsmall : s.debounceCounter + p.1 < DEBOUNCE_TIME_MS := by omega
    rw [runButtons_cons, checkButton_differ_small s p.1 p.2 hb hsmall]
    rw [ih { s with debounceCounter := s.debounceCounter + p.1 }
      (fun q hq => hp q (List.mem_cons_of_mem _ hq))
      (show s.debounceCounter + p.1 + (List.map Prod.fst ps).sum < DEBOUNCE_TIME_MS
        by omega)]
    simp [Nat.add_assoc]

/-- A run of differing raw samples whose total elapsed time reaches the
threshold commits the new state and sets the abort flag iff the new
state is pressed. -/
theorem commit_run : ∀ (polls : List (Nat × Bool)) (s : BtnState),
    (∀ p ∈ polls, p.2 = !s.buttonState) →
    s.debounceCounter < DEBOUNCE_TIME_MS →
    DEBOUNCE_TIME_MS ≤ s.debounceCounter + (polls.map Prod.fst).sum →
    runButtons s polls
      = { debounceCounter := 0, buttonState := !s.buttonState,
          abortPattern := s.abortPattern || !s.buttonState } := by
  intro polls
  induction polls with
  | nil =>
    intro s _ hlt hge
    simp at hge
    omega
  | cons p ps ih =>
    intro s hp hlt hge
    have hbn : p.2 = !s.buttonState := hp p (by simp)
    have hb : p.2 ≠ s.buttonState := by
      rw [hbn]
      cases s.buttonState <;> simp
    simp only [List.map_cons, List.sum_cons] at hge
    by_cases hc : DEBOUNCE_TIME_MS ≤ s.debounceCounter + p.1
    · rw [runButtons_cons, checkButton_commit s p.1 p.2 hb hlt hc]
      have hrest : ∀ q ∈ ps, q.2
          = ({ debounceCounter := 0, buttonState := p.2,
               abortPattern := s.abortPattern || p.2 } : BtnState).buttonState := by
        intro q hq
        rw [hp q (List.mem_cons_of_mem _ hq), hbn]
      rw [hold_run ps _ hrest rfl, hbn]
    · rw [runButtons_cons, checkButton_differ_small s p.1 p.2 hb (by omega)]
      exact ih { s with debounceCounter := s.debounceCounter + p.1 }
        (fun q hq => hp q (List.mem_cons_of_mem _ hq))
        (show s.debounceCounter + p.1 < DEBOUNCE_TIME_MS by omega)
        (show DEBOUNCE_TIME_MS ≤ s.debounceCounter + p.1 + (List.map Prod.fst ps).sum
          by omega)

/-- `checkButton` never clears the abort flag. -/
theorem checkButton_abort_mono (s : BtnState) (dt : Nat) (b : Bool)
    (h : s.abortPattern = true) : (checkButton s dt b).abortPattern = true := by
  cases b <;> simp only [checkButton] <;> split_ifs <;> simp [h]

/-- C4: with debounce threshold `DEBOUNCE_TIME_MS`, (1) a raw level
change held continuously across polls totalling at least the threshold
commits the new debounced state, and sets the abort/trigger flag iff the
committed transition is a release-to-press (flag formula
`abortPattern || newState`); (2) a raw level change whose polls total
less than the threshold before the level reverts to the latched state
leaves the logical state unchanged and never sets the trigger flag;
(3) polls matching the latched state change nothing of a settled state,
so the flag is set at most once per committed press edge (no retrigger
while held); (4) `checkButton` never clears a set abort flag. -/
theorem checkButton_debounce_spec :
    (∀ (s : BtnState) (polls : List (Nat × Bool)),
        (∀ p ∈ polls, p.2 = !s.buttonState) →
        s.debounceCounter = 0 →
        DEBOUNCE_TIME_MS ≤ (polls.map Prod.fst).sum →
        runButtons s polls
          = { debounceCounter := 0, buttonState := !s.buttonState,
              abortPattern := s.abortPattern || !s.buttonState })
    ∧ (∀ (s : BtnState) (polls : List (Nat × Bool)) (dt : Nat),
        (∀ p ∈ polls, p.2 = !s.buttonState) →
        s.debounceCounter = 0 →
        (polls.map Prod.fst).sum < DEBOUNCE_TIME_MS →
        runButtons s (polls ++ [(dt, s.buttonState)])
          = { debounceCounter := 0, buttonState := s.buttonState,
              abortPattern := s.abortPattern })
    ∧ (∀ (s : BtnState) (polls : List (Nat × Bool)),
        (∀ p ∈ polls, p.2 = s.buttonState) →
        s.debounceCounter = 0 →
        runButtons s polls = s)
    ∧ (∀ (s : BtnState) (dt : Nat) (b : Bool),
        s.abortPattern = true → (checkButton s dt b).abortPattern = true) := by
  have hT : DEBOUNCE_TIME_MS = 250 := rfl
  refine ⟨?_, ?_, fun s polls => hold_run polls s, checkButton_abort_mono⟩
  · intro s polls hp h0 hsum
    exact commit_run polls s hp (by omega) (by omega)
  · intro s polls dt hp h0 hsum
    have hglitch := glitch_run polls s hp (by omega)
    simp only [runButtons, List.foldl_append]
    rw [show (List.foldl (fun s p => checkButton s p.1 p.2) s polls)
        = runButtons s polls from rfl, hglitch]
    simp only [List.foldl_cons, List.foldl_nil]
    rw [show ({ s with debounceCounter := s.debounceCounter + (polls.map Prod.fst).sum }
        : BtnState).buttonState = s.buttonState from rfl]
    rw [checkButton_matching]

/-- Witness for `checkButton_debounce_spec`: a 250 ms press commits and
triggers; a 249 ms press that reverts is rejected; a matching poll is a
no-op; a set abort flag stays set. -/
theorem checkButton_debounce_spec_witness :
    runButtons ⟨0, false, false⟩ [(100, true), (150, true)] = ⟨0, true, true⟩
    ∧ runButtons ⟨0, true, false⟩ ([(249, false)] ++ [(5, true)]) = ⟨0, true, false⟩
    ∧ runButtons ⟨0, true, false⟩ [(300, true)] = ⟨0, true, false⟩
    ∧ (checkButton ⟨0, true, true⟩ 7 false).abortPattern = true :=
  ⟨checkButton_debounce_spec.1 ⟨0, false, false⟩ [(100, true), (150, true)]
      (by decide) rfl (by decide),
   checkButton_debounce_spec.2.1 ⟨0, true, false⟩ [(249, false)] 5
      (by decide) rfl (by decide),
   checkButton_debounce_spec.2.2.1 ⟨0, true, false⟩ [(300, true)]
      (by decide) rfl,
   checkButton_debounce_spec.2.2.2 ⟨0, true, true⟩ 7 false rfl⟩

/-! ### The empty-catalog selection (C6) -/

/-- C6 counterexample: with an empty catalog (`fileCount = 0`, cursor
`0`, the pattern-order array as the zero-iteration shuffle leaves it,
and all `filenames` slots at their default empty string), the spec-side
selection signals `none` ("no pattern available") but the code's
`openFileSD` selection still indexes and selects — it returns
`filenames[patternOrder[0]]`, the empty identifier — so the claim that
no selection is performed is false at this input. -/
theorem selectPattern_empty_catalog_cex :
    selectPatternSpec 0 0 (randomizePatterns 0 (fun _ => 0)) (fun _ => "") = none
    ∧ selectPattern 0 (randomizePatterns 0 (fun _ => 0)) (fun _ => "") = ""
    ∧ some (selectPattern 0 (randomizePatterns 0 (fun _ => 0)) (fun _ => ""))
        ≠ selectPatternSpec 0 0 (randomizePatterns 0 (fun _ => 0)) (fun _ => "") :=
  ⟨rfl, rfl, by simp [selectPatternSpec]⟩

/-- C6 amended: with catalog size `0` the code performs the selection
anyway — `patternOrder[0]` is still `0` after the zero-iteration
shuffle, the selected identifier is the default empty string
`filenames[0]` (both reads physically in bounds of the capacity-10
arrays), the cursor advance stays at `0`, and the subsequent open of the
empty identifier fails, taking the file-error / `OpenFailed` path of
`sendGcode`; no "no pattern available" signal exists in the code. -/
theorem selectPattern_empty_catalog_amended : ∀ (rand : Nat → Nat) (A : Nat → Bool),
    randomizePatterns 0 rand 0 = 0
    ∧ selectPattern 0 (randomizePatterns 0 rand) (fun _ => "") = ""
    ∧ nextPattern 0 0 = 0
    ∧ sendGcode none A
        = ([Ev.wakeWrite, Ev.drainRecv, Ev.fileErrorReport, Ev.fileClose],
           some Outcome.OpenFailed) := by
  intro rand A
  exact ⟨rfl, rfl, rfl, rfl⟩

/-! ### The control loop after an abort (C8) -/

/-- C8 counterexample: start an iteration with the signal low; a
debounced press during its `sendGcode` aborts the pattern and leaves
`abortPattern` set (the break does not clear it). On the very next
iteration the entry condition is satisfied by that stale flag even
though the signal is now high and no fresh press occurs
(`pressDuringSend = false`), and the next pattern is streamed
(`streamed` goes from 1 to 2) — so the abort that stopped the current
pattern does immediately trigger the next one, against the claim. -/
theorem loop_abort_restarts_cex :
    loopIter 2 true true ⟨false, 0, 0⟩ = ⟨true, 1, 1⟩
    ∧ loopIter 2 false false (loopIter 2 true true ⟨false, 0, 0⟩) = ⟨false, 0, 2⟩ := by
  decide

/-- C8 amended: the loop body streams at most one pattern per iteration
— so the next pattern is not started within the same iteration — and the
entry condition `pin low OR abortPattern` is re-evaluated every
iteration; but an abort-ended stream leaves the abort flag set, so the
stale flag alone satisfies the next iteration's entry condition and the
next pattern is streamed immediately, without the signal being low and
without any fresh debounced trigger. -/
theorem loop_abort_restarts_amended : ∀ (fc : Nat) (s : LoopState) (pin press : Bool),
    ((pin || s.abortPattern) = false → loopIter fc pin press s = s)
    ∧ ((pin || s.abortPattern) = true →
        loopIter fc pin press s
          = ⟨press, nextPattern fc s.currentPattern, s.streamed + 1⟩)
    ∧ (s.abortPattern = true → (loopIter fc pin press s).streamed = s.streamed + 1) := by
  intro fc s pin press
  refine ⟨?_, ?_, ?_⟩ <;> intro h <;> simp [loopIter, h]

/-- Witness for `loop_abort_restarts_amended`: with the abort flag left
set and the pin high, the next iteration still streams a pattern. -/
theorem loop_abort_restarts_amended_witness :
    loopIter 2 false false ⟨true, 0, 0⟩ = ⟨false, nextPattern 2 0, 0 + 1⟩
    ∧ (loopIter 2 false false ⟨true, 0, 0⟩).streamed = 0 + 1 :=
  ⟨(loop_abort_restarts_amended 2 ⟨true, 0, 0⟩ false false).2.1 rfl,
   (loop_abort_restarts_amended 2 ⟨true, 0, 0⟩ false false).2.2 rfl⟩

end GcodeFeeder
